import Mathlib

/-!
Verification of the deadrop message store (src/bin/deadrop.js).

The store is a single SQLite table `messages`; the three operations are
`sendMessage` (Deposit), `checkMessages` (DrainUnread) and `showInbox`
(ListInbox).  We embed the table as a list of rows in insertion order
together with the AUTOINCREMENT sequence value (SQLite keeps the largest
id ever assigned in `sqlite_sequence`; DELETE does not lower it).

Timestamps (`DATETIME DEFAULT CURRENT_TIMESTAMP`, second resolution) are
embedded as natural numbers; each operation takes the current time as an
explicit parameter.  File-system failures (`StoreUnavailable`) are outside
the embedding, which models the store once the file is open.

SQL `ORDER BY timestamp ASC` (resp. `DESC`) guarantees only that the output
is some permutation of the selected rows that is pairwise non-decreasing
(resp. non-increasing) in `timestamp`; the relative order of rows with equal
keys is unspecified.  Selections are therefore embedded as relations between
the table and the permitted output lists.
-/

/-- A row of the `messages` table (src/bin/deadrop.js, initDatabase schema):
id INTEGER PRIMARY KEY AUTOINCREMENT, from_agent TEXT NOT NULL,
to_agent TEXT NOT NULL, subject TEXT, body TEXT NOT NULL,
timestamp DATETIME DEFAULT CURRENT_TIMESTAMP, read_at DATETIME. -/
structure Message where
  id : Nat
  from_agent : String
  to_agent : String
  subject : Option String
  body : String
  timestamp : Nat
  read_at : Option Nat
  deriving DecidableEq, Repr

/-- The open database: the `messages` rows in insertion order, plus the
AUTOINCREMENT sequence (largest id ever assigned, from sqlite_sequence). -/
structure Store where
  rows : List Message
  seq : Nat
  deriving DecidableEq, Repr

/-- The WHERE clause of checkMessages: `to_agent = ? AND read_at IS NULL`. -/
def unreadFor (agent : String) (m : Message) : Bool :=
  m.to_agent == agent && m.read_at == none

/-- The WHERE clause of showInbox: `to_agent = ?`, plus `AND read_at IS NULL`
when the unreadOnly flag is set. -/
def inboxFor (agent : String) (unreadOnly : Bool) (m : Message) : Bool :=
  m.to_agent == agent && (!unreadOnly || m.read_at == none)

/-- sendMessage (src/bin/deadrop.js lines 50-70): INSERT INTO messages
(from_agent, to_agent, subject, body) VALUES (?, ?, ?, ?), bound to
[from, to, subject, body]; `id` is assigned by AUTOINCREMENT and
`timestamp` defaults to the current time; the call resolves with
`this.lastID`, the id of the new row.  The source performs no validation
of its string arguments. -/
def sendMessage (s : Store) (toA fromA : String) (subject : Option String)
    (body : String) (t : Nat) : Store × Nat :=
  let newId := s.seq + 1
  (⟨s.rows ++ [⟨newId, fromA, toA, subject, body, t, none⟩], newId⟩, newId)

/-- Permitted results of the SELECT in checkMessages (lines 78-82):
`SELECT * FROM messages WHERE to_agent = ? AND read_at IS NULL ORDER BY
timestamp ASC` — a permutation of the matching rows, non-decreasing in
timestamp; SQLite leaves the order of equal timestamps unspecified. -/
def checkSelect (s : Store) (agent : String) (out : List Message) : Prop :=
  List.Perm (s.rows.filter (unreadFor agent)) out ∧
  List.Pairwise (fun m1 m2 => m1.timestamp ≤ m2.timestamp) out

/-- The UPDATE in checkMessages (lines 99-103): `UPDATE messages SET
read_at = CURRENT_TIMESTAMP WHERE id IN (...)`, the id list being the ids
of the selected rows. -/
def markRead (ids : List Nat) (t : Nat) (rows : List Message) : List Message :=
  rows.map (fun m => if m.id ∈ ids then { m with read_at := some t } else m)

/-- State effect of checkMessages given the SELECT result `out`: when `out`
is empty the function returns early (lines 88-93) without running the
UPDATE; otherwise the UPDATE marks exactly the selected ids.  The call
resolves with `out` itself (the row data captured before the UPDATE). -/
def checkApply (s : Store) (t : Nat) (out : List Message) : Store :=
  if out.isEmpty then s
  else ⟨markRead (out.map (fun m => m.id)) t s.rows, s.seq⟩

/-- Full checkMessages (DrainUnread) step: a permitted SELECT result and the
resulting state. -/
def checkRel (s : Store) (agent : String) (t : Nat) (out : List Message)
    (s2 : Store) : Prop :=
  checkSelect s agent out ∧ s2 = checkApply s t out

/-- Permitted results of showInbox (lines 128-137): `SELECT * FROM messages
WHERE to_agent = ?` (plus `AND read_at IS NULL` when unreadOnly)
`ORDER BY timestamp DESC`; read-only, the state is unchanged. -/
def inboxSelect (s : Store) (agent : String) (unreadOnly : Bool)
    (out : List Message) : Prop :=
  List.Perm (s.rows.filter (inboxFor agent unreadOnly)) out ∧
  List.Pairwise (fun m1 m2 => m2.timestamp ≤ m1.timestamp) out

/-! ### Interleaving model for concurrent checkMessages calls

checkMessages runs its SELECT and its UPDATE as two separate statements on
an autocommitting connection — there is no BEGIN/COMMIT in the source — so
under two concurrent callers (independent processes) the four statements
can interleave at the statement boundary.  Each step below is one
statement. -/

/-- The SELECT statement of one checkMessages caller, run against the shared
store: the caller captures the selected rows in its local `messages`
variable.  (The filter order itself is one of the permitted SELECT
results.) -/
def drainSelectStep (s : Store) (agent : String) : List Message :=
  s.rows.filter (unreadFor agent)

/-- The UPDATE statement (plus resolve) of one checkMessages caller that
earlier captured `sel`: marks the captured ids read and returns `sel`. -/
def drainUpdateStep (s : Store) (sel : List Message) (t : Nat) :
    Store × List Message :=
  (checkApply s t sel, sel)

/-! ### Schema bootstrap -/

/-- Error a plain CREATE TABLE raises when the table already exists;
`IF NOT EXISTS` suppresses it. -/
inductive SqlError where
  | tableExists
  deriving DecidableEq, Repr

/-- A database file: whether the `messages` table exists, and its content. -/
structure DbFile where
  hasTable : Bool
  tbl : Store
  deriving DecidableEq, Repr

/-- SQLite CREATE TABLE semantics for the `messages` table: errors on an
existing table unless `IF NOT EXISTS` is given, in which case the file is
left untouched; otherwise creates the empty table. -/
def runCreateTable (ifNotExists : Bool) (f : DbFile) : Except SqlError DbFile :=
  if f.hasTable then
    if ifNotExists then Except.ok f else Except.error SqlError.tableExists
  else Except.ok ⟨true, ⟨[], 0⟩⟩

/-- initDatabase (src/bin/deadrop.js lines 19-47): opens the file (creating
it if absent; a fresh file has no table) and runs
`CREATE TABLE IF NOT EXISTS messages (...)`. -/
def initDatabase (f : DbFile) : Except SqlError DbFile :=
  runCreateTable true f

/-! ### Sequential operation traces -/

/-- One store operation, with its nondeterministic SELECT output recorded
(deposit has none; check and inbox record the row order the SELECT
returned). -/
inductive Op where
  | deposit (toA fromA : String) (subject : Option String) (body : String) (t : Nat)
  | check (agent : String) (t : Nat) (out : List Message)
  | inbox (agent : String) (unreadOnly : Bool) (out : List Message)

/-- Transition of a single operation on the store. -/
def OpStep (s : Store) : Op → Store → Prop
  | Op.deposit toA fromA subject body t, s2 =>
      s2 = (sendMessage s toA fromA subject body t).1
  | Op.check agent t out, s2 =>
      checkSelect s agent out ∧ s2 = checkApply s t out
  | Op.inbox agent unreadOnly out, s2 =>
      inboxSelect s agent unreadOnly out ∧ s2 = s

/-- Reflexive-transitive execution of a list of operations. -/
inductive Steps : Store → List Op → Store → Prop where
  | nil (s : Store) : Steps s [] s
  | cons {s s2 s3 : Store} {op : Op} {ops : List Op} :
      OpStep s op s2 → Steps s2 ops s3 → Steps s (op :: ops) s3

/-! ### External administration (for the monotonic-id property)

The store itself never deletes rows; deletion is an external administrative
action.  A SQL DELETE removes rows but does not touch sqlite_sequence, so
AUTOINCREMENT never reuses an id. -/

/-- A deposit or an external row deletion. -/
inductive AdminOp where
  | dep (toA fromA : String) (subject : Option String) (body : String) (t : Nat)
  | del (ids : List Nat)

/-- Apply one admin-level operation; returns the id a deposit resolves with. -/
def applyAdmin (s : Store) : AdminOp → Store × Option Nat
  | AdminOp.dep toA fromA subject body t =>
      let r := sendMessage s toA fromA subject body t
      (r.1, some r.2)
  | AdminOp.del ids =>
      (⟨s.rows.filter (fun m => !(ids.contains m.id)), s.seq⟩, none)

/-- Run a sequence of admin-level operations, collecting the returned
deposit ids in call order. -/
def runAdmin (s : Store) : List AdminOp → Store × List Nat
  | [] => (s, [])
  | op :: ops =>
      let r := applyAdmin s op
      let rest := runAdmin r.1 ops
      (rest.1, (match r.2 with | some i => [i] | none => []) ++ rest.2)

/-- Invariant carried along a trace for the read-once property of a message
drained at time t with id mid by a drain for the given agent: every row id
stays within the assigned sequence, every row carrying mid is marked read
at exactly time t, and one such row addressed to the agent is present. -/
def DrainedInv (agent : String) (mid t : Nat) (s : Store) : Prop :=
  (∀ r ∈ s.rows, r.id ≤ s.seq) ∧ mid ≤ s.seq ∧
  (∀ r ∈ s.rows, r.id = mid → r.read_at = some t) ∧
  (∃ r, r ∈ s.rows ∧ r.id = mid ∧ r.to_agent = agent ∧ r.read_at = some t)

/-! ### Concrete example states used in witnesses and counterexamples -/

/-- Example row: one unread message for agent cody. -/
def exRow : Message := ⟨1, "larry", "cody", none, "hi", 0, none⟩

/-- Example store holding just the row exRow. -/
def exStore : Store := ⟨[exRow], 1⟩

/-- The store exStore after a drain for cody at time 4. -/
def exDrained : Store := checkApply exStore 4 [exRow]

/-- Store with one unread message for ralph (the N = 1 instance of the
concurrent-drain scenario). -/
def c1Store : Store := ⟨[⟨1, "larry", "ralph", none, "ping", 0, none⟩], 1⟩

/-- The SELECT of caller A against c1Store (first statement of its
checkMessages call). -/
def c1SelA : List Message := drainSelectStep c1Store "ralph"

/-- The SELECT of caller B, also against c1Store: it runs before the UPDATE
of caller A commits, which the missing transaction permits. -/
def c1SelB : List Message := drainSelectStep c1Store "ralph"

/-- Shared store after the UPDATE of caller A at time 10. -/
def c1AfterA : Store := (drainUpdateStep c1Store c1SelA 10).1

/-- The sequence caller A resolves with. -/
def c1ResultA : List Message := (drainUpdateStep c1Store c1SelA 10).2

/-- The sequence caller B resolves with: its UPDATE at time 11 runs against
c1AfterA, but it returns the rows captured by its earlier SELECT. -/
def c1ResultB : List Message := (drainUpdateStep c1AfterA c1SelB 11).2

/-- First of two unread messages for agent ann with equal timestamps (the
second-resolution CURRENT_TIMESTAMP default makes such ties routine). -/
def tieM1 : Message := ⟨1, "x", "ann", none, "b1", 5, none⟩

/-- Second message for ann: larger id, same timestamp as tieM1. -/
def tieM2 : Message := ⟨2, "y", "ann", none, "b2", 5, none⟩

/-- Store holding the two tied messages in insertion order. -/
def tieStore : Store := ⟨[tieM1, tieM2], 2⟩

/-! ### Helper lemmas -/

theorem unreadFor_eq_true {agent : String} {m : Message} :
    unreadFor agent m = true ↔ m.to_agent = agent ∧ m.read_at = none := by
  simp [unreadFor]

theorem inboxFor_eq_true {agent : String} {u : Bool} {m : Message} :
    inboxFor agent u m = true ↔
      m.to_agent = agent ∧ (u = true → m.read_at = none) := by
  cases u <;> simp [inboxFor]

theorem checkSelect_of_filter_eq {s : Store} {agent : String} {out : List Message}
    (h : s.rows.filter (unreadFor agent) = out)
    (h2 : List.Pairwise (fun m1 m2 => m1.timestamp ≤ m2.timestamp) out) :
    checkSelect s agent out :=
  ⟨h ▸ List.Perm.refl _, h2⟩

theorem inboxSelect_of_filter_eq {s : Store} {agent : String} {u : Bool}
    {out : List Message}
    (h : s.rows.filter (inboxFor agent u) = out)
    (h2 : List.Pairwise (fun m1 m2 => m2.timestamp ≤ m1.timestamp) out) :
    inboxSelect s agent u out :=
  ⟨h ▸ List.Perm.refl _, h2⟩

theorem checkSelect_mem_iff {s : Store} {agent : String} {out : List Message}
    (h : checkSelect s agent out) (m : Message) :
    m ∈ out ↔ m ∈ s.rows ∧ m.to_agent = agent ∧ m.read_at = none := by
  rw [← h.1.mem_iff]
  simp [List.mem_filter, unreadFor_eq_true]

theorem inboxSelect_mem_iff {s : Store} {agent : String} {u : Bool}
    {out : List Message} (h : inboxSelect s agent u out) (m : Message) :
    m ∈ out ↔ m ∈ s.rows ∧ m.to_agent = agent ∧ (u = true → m.read_at = none) := by
  rw [← h.1.mem_iff]
  simp [List.mem_filter, inboxFor_eq_true]

theorem runAdmin_dep (s : Store) (toA fromA : String) (subject : Option String)
    (body : String) (t : Nat) (ops : List AdminOp) :
    runAdmin s (AdminOp.dep toA fromA subject body t :: ops)
      = ((runAdmin ⟨s.rows ++ [⟨s.seq + 1, fromA, toA, subject, body, t, none⟩],
            s.seq + 1⟩ ops).1,
         (s.seq + 1) ::
          (runAdmin ⟨s.rows ++ [⟨s.seq + 1, fromA, toA, subject, body, t, none⟩],
            s.seq + 1⟩ ops).2) :=
  rfl

theorem runAdmin_del (s : Store) (ids : List Nat) (ops : List AdminOp) :
    runAdmin s (AdminOp.del ids :: ops)
      = runAdmin ⟨s.rows.filter (fun m => !(ids.contains m.id)), s.seq⟩ ops :=
  rfl

theorem runAdmin_ids_increasing (ops : List AdminOp) :
    ∀ s : Store, List.Pairwise (fun i j => i < j) (runAdmin s ops).2 ∧
      ∀ i ∈ (runAdmin s ops).2, s.seq < i := by
  induction ops with
  | nil => intro s; simp [runAdmin]
  | cons op ops ih =>
    intro s
    cases op with
    | dep toA fromA subject body t =>
      rw [runAdmin_dep]
      have ihs := ih ⟨s.rows ++ [⟨s.seq + 1, fromA, toA, subject, body, t, none⟩],
        s.seq + 1⟩
      have hb : ∀ i ∈ (runAdmin ⟨s.rows ++
          [⟨s.seq + 1, fromA, toA, subject, body, t, none⟩], s.seq + 1⟩ ops).2,
          s.seq + 1 < i := ihs.2
      refine ⟨List.Pairwise.cons (fun j hj => ?_) ihs.1, ?_⟩
      · have := hb j hj
        omega
      · intro i hi
        rcases List.mem_cons.mp hi with h | h
        · omega
        · have := hb i h
          omega
    | del ids =>
      rw [runAdmin_del]
      exact ih _

/-- Claim C8: along any sequence of deposits, possibly interleaved with
external row deletions (which do not touch the AUTOINCREMENT sequence), the
ids that Deposit returns are strictly increasing in call order and no id is
ever assigned twice. -/
theorem C8_monotonic_ids (s : Store) (ops : List AdminOp) :
    List.Pairwise (fun i j => i < j) (runAdmin s ops).2 ∧
    List.Nodup (runAdmin s ops).2 := by
  have h := runAdmin_ids_increasing ops s
  exact ⟨h.1, h.1.imp fun hij => Nat.ne_of_lt hij⟩

/-- Witness for C8 at a concrete run: two deposits around an external
deletion of the first row. -/
theorem C8_monotonic_ids_witness :
    List.Pairwise (fun i j => i < j)
      (runAdmin ⟨[], 0⟩
        [AdminOp.dep "cody" "larry" none "a" 1, AdminOp.del [1],
         AdminOp.dep "cody" "larry" none "b" 2]).2 ∧
    List.Nodup
      (runAdmin ⟨[], 0⟩
        [AdminOp.dep "cody" "larry" none "a" 1, AdminOp.del [1],
         AdminOp.dep "cody" "larry" none "b" 2]).2 :=
  C8_monotonic_ids ⟨[], 0⟩
    [AdminOp.dep "cody" "larry" none "a" 1, AdminOp.del [1],
     AdminOp.dep "cody" "larry" none "b" 2]

/-- Claim C9: schema bootstrap is idempotent.  Every open succeeds and a
repeated open is the identity; opening a file whose table already holds
rows never errors and leaves every row unchanged. -/
theorem C9_idempotent_bootstrap :
    (∀ f : DbFile, ∃ f2 : DbFile, initDatabase f = Except.ok f2 ∧
      f2.hasTable = true ∧ initDatabase f2 = Except.ok f2) ∧
    (∀ s : Store, initDatabase ⟨true, s⟩ = Except.ok ⟨true, s⟩) := by
  constructor
  · intro f
    by_cases h : f.hasTable = true
    · exact ⟨f, by simp [initDatabase, runCreateTable, h], h,
        by simp [initDatabase, runCreateTable, h]⟩
    · exact ⟨⟨true, ⟨[], 0⟩⟩, by simp [initDatabase, runCreateTable, h], rfl,
        by simp [initDatabase, runCreateTable]⟩
  · intro s
    simp [initDatabase, runCreateTable]

/-- Claim C6: a Deposit with non-empty required inputs appends exactly one
new message carrying the given fields, with read_at absent and timestamp
the current time, and returns the id assigned to that message. -/
theorem C6_deposit_appends (s : Store) (toA fromA : String)
    (subject : Option String) (body : String) (t : Nat)
    (h1 : fromA ≠ "") (h2 : toA ≠ "") (h3 : body ≠ "") :
    (sendMessage s toA fromA subject body t).1.rows
      = s.rows ++ [⟨s.seq + 1, fromA, toA, subject, body, t, none⟩] ∧
    (sendMessage s toA fromA subject body t).2 = s.seq + 1 ∧
    (sendMessage s toA fromA subject body t).1.rows.length = s.rows.length + 1 := by
  refine ⟨rfl, rfl, ?_⟩
  simp [sendMessage]

/-- Witness for C6: the scenario Deposit(from=larry, to=cody, body=done)
against the empty store yields id 1. -/
theorem C6_deposit_appends_witness :
    (("larry" : String) ≠ "") ∧
    ((sendMessage ⟨[], 0⟩ "cody" "larry" none "done" 3).1.rows
      = ([] : List Message) ++ [⟨0 + 1, "larry", "cody", none, "done", 3, none⟩] ∧
    (sendMessage ⟨[], 0⟩ "cody" "larry" none "done" 3).2 = 0 + 1 ∧
    (sendMessage ⟨[], 0⟩ "cody" "larry" none "done" 3).1.rows.length
      = ([] : List Message).length + 1) :=
  ⟨by decide,
   C6_deposit_appends ⟨[], 0⟩ "cody" "larry" none "done" 3
     (by decide) (by decide) (by decide)⟩

/-- Counterexample to claim C2: Deposit(from empty, to cody, body x) against
the empty store does not fail — it returns id 1, appends a row, and a
ListInbox for cody afterwards returns that row instead of the previous
empty sequence. -/
theorem C2_counterexample :
    (sendMessage ⟨[], 0⟩ "cody" "" none "x" 7).2 = 1 ∧
    (sendMessage ⟨[], 0⟩ "cody" "" none "x" 7).1.rows
      = [⟨1, "", "cody", none, "x", 7, none⟩] ∧
    inboxSelect (sendMessage ⟨[], 0⟩ "cody" "" none "x" 7).1 "cody" false
      [⟨1, "", "cody", none, "x", 7, none⟩] ∧
    ([⟨1, "", "cody", none, "x", 7, none⟩] : List Message).length = 1 := by
  refine ⟨rfl, rfl, inboxSelect_of_filter_eq (by decide) ?_, rfl⟩
  simp

/-- Claim C2 (amended): the store performs no emptiness validation.  A
Deposit whose from field is empty succeeds anyway: it appends exactly one
row, and every permitted ListInbox result for the recipient afterwards
contains that row. -/
theorem C2_empty_input_accepted (s : Store) (toA : String)
    (subject : Option String) (body : String) (t : Nat) :
    (sendMessage s toA "" subject body t).1.rows
      = s.rows ++ [⟨s.seq + 1, "", toA, subject, body, t, none⟩] ∧
    (sendMessage s toA "" subject body t).2 = s.seq + 1 ∧
    ∀ out, inboxSelect (sendMessage s toA "" subject body t).1 toA false out →
      (⟨s.seq + 1, "", toA, subject, body, t, none⟩ : Message) ∈ out := by
  refine ⟨rfl, rfl, fun out h => ?_⟩
  rw [inboxSelect_mem_iff h]
  refine ⟨?_, rfl, by simp⟩
  simp [sendMessage]

/-- Counterexample to claim C1 (the failing execution): checkMessages runs
its SELECT and its UPDATE as two separate autocommitted statements, so with
one pre-existing unread message for ralph (N = 1) the interleaving
SELECT(A), SELECT(B), UPDATE(A), UPDATE(B) is permitted; both SELECT
results are valid per-statement outputs, yet both callers return message 1:
the union of the two returned sequences has two elements carrying the same
id instead of N = 1 distinct elements. -/
theorem C1_counterexample :
    checkSelect c1Store "ralph" c1SelA ∧
    checkSelect c1Store "ralph" c1SelB ∧
    c1ResultA = [⟨1, "larry", "ralph", none, "ping", 0, none⟩] ∧
    c1ResultB = [⟨1, "larry", "ralph", none, "ping", 0, none⟩] ∧
    (c1ResultA ++ c1ResultB).map (fun m => m.id) = [1, 1] ∧
    (c1ResultA ++ c1ResultB).length = 2 := by
  have hA : c1SelA = [⟨1, "larry", "ralph", none, "ping", 0, none⟩] := by decide
  have hB : c1SelB = [⟨1, "larry", "ralph", none, "ping", 0, none⟩] := by decide
  refine ⟨⟨?_, ?_⟩, ⟨?_, ?_⟩, by decide, by decide, by decide, by decide⟩
  · rw [show c1Store.rows.filter (unreadFor "ralph") = c1SelA from by decide]
  · rw [hA]
    simp
  · rw [show c1Store.rows.filter (unreadFor "ralph") = c1SelB from by decide]
  · rw [hB]
    simp

/-- Counterexample to claim C4: with two unread messages for ann that share
a timestamp, the list [tieM2, tieM1] is a permitted result of the drain
SELECT (the query orders by timestamp only), yet it is not ordered by
ascending id on the tie: the first element has the larger id. -/
theorem C4_counterexample :
    checkSelect tieStore "ann" [tieM2, tieM1] ∧
    tieM1.timestamp = tieM2.timestamp ∧
    tieM1.id < tieM2.id ∧
    List.head? [tieM2, tieM1] = some tieM2 := by
  refine ⟨⟨?_, ?_⟩, by decide, by decide, rfl⟩
  · have h : tieStore.rows.filter (unreadFor "ann") = [tieM1, tieM2] := by decide
    rw [h]
    exact List.Perm.swap tieM2 tieM1 []
  · simp [tieM1, tieM2]

/-- Counterexample to claim C5: with the same two tied messages, the list
[tieM1, tieM2] is a permitted result of the showInbox SELECT (ORDER BY
timestamp DESC constrains nothing on the tie), yet on the tie it is ordered
by ascending rather than descending id. -/
theorem C5_counterexample :
    inboxSelect tieStore "ann" false [tieM1, tieM2] ∧
    tieM1.timestamp = tieM2.timestamp ∧
    tieM1.id < tieM2.id ∧
    List.head? [tieM1, tieM2] = some tieM1 := by
  refine ⟨inboxSelect_of_filter_eq (by decide) ?_, by decide, by decide, rfl⟩
  simp [tieM1, tieM2]

/-- Claim C4 (amended): DrainUnread returns exactly the messages with
to_agent = agent and read_at absent, in an order that is non-decreasing in
timestamp; the relative order of messages with equal timestamps is
unspecified (the query has no id tie-break); and it returns the empty
sequence, not an error, when no such message exists. -/
theorem C4_drain_selection (s : Store) (agent : String) (out : List Message)
    (h : checkSelect s agent out) :
    (∀ m, m ∈ out ↔ m ∈ s.rows ∧ m.to_agent = agent ∧ m.read_at = none) ∧
    List.Pairwise (fun m1 m2 => m1.timestamp ≤ m2.timestamp) out ∧
    out.length = (s.rows.filter (unreadFor agent)).length ∧
    ((∀ m ∈ s.rows, m.to_agent = agent → m.read_at ≠ none) → out = []) := by
  refine ⟨fun m => checkSelect_mem_iff h m, h.2, h.1.length_eq.symm, fun hnone => ?_⟩
  have hf : s.rows.filter (unreadFor agent) = [] := by
    rw [List.filter_eq_nil_iff]
    intro m hm
    rw [unreadFor_eq_true]
    intro hc
    exact hnone m hm hc.1 hc.2
  have hp : List.Perm ([] : List Message) out := hf ▸ h.1
  exact hp.symm.eq_nil

/-- Witness for C4 (amended) at the one-unread-message store. -/
theorem C4_drain_selection_witness :
    (∀ m, m ∈ [exRow] ↔ m ∈ exStore.rows ∧ m.to_agent = "cody" ∧ m.read_at = none) ∧
    List.Pairwise (fun m1 m2 => m1.timestamp ≤ m2.timestamp) [exRow] ∧
    ([exRow] : List Message).length = (exStore.rows.filter (unreadFor "cody")).length ∧
    ((∀ m ∈ exStore.rows, m.to_agent = "cody" → m.read_at ≠ none) → [exRow] = []) :=
  C4_drain_selection exStore "cody" [exRow]
    (checkSelect_of_filter_eq (by decide) (by simp))

/-- Claim C5 (amended): ListInbox returns exactly the messages with
to_agent = agent (restricted to read_at absent when unreadOnly), in an
order that is non-increasing in timestamp; the relative order of equal
timestamps is unspecified (no id tie-break in the query); and the
operation leaves the store unchanged. -/
theorem C5_inbox_selection (s : Store) (agent : String) (u : Bool)
    (out : List Message) (h : inboxSelect s agent u out) :
    (∀ m, m ∈ out ↔ m ∈ s.rows ∧ m.to_agent = agent ∧ (u = true → m.read_at = none)) ∧
    List.Pairwise (fun m1 m2 => m2.timestamp ≤ m1.timestamp) out ∧
    out.length = (s.rows.filter (inboxFor agent u)).length ∧
    (∀ s2, OpStep s (Op.inbox agent u out) s2 → s2 = s) :=
  ⟨fun m => inboxSelect_mem_iff h m, h.2, h.1.length_eq.symm, fun _ hs => hs.2⟩

/-- Witness for C5 (amended) at the one-message store, unreadOnly false. -/
theorem C5_inbox_selection_witness :
    (∀ m, m ∈ [exRow] ↔ m ∈ exStore.rows ∧ m.to_agent = "cody" ∧
      (false = true → m.read_at = none)) ∧
    List.Pairwise (fun m1 m2 => m2.timestamp ≤ m1.timestamp) [exRow] ∧
    ([exRow] : List Message).length = (exStore.rows.filter (inboxFor "cody" false)).length ∧
    (∀ s2, OpStep exStore (Op.inbox "cody" false [exRow]) s2 → s2 = exStore) :=
  C5_inbox_selection exStore "cody" false [exRow]
    (inboxSelect_of_filter_eq (by decide) (by simp))

/-- Claim C10: every record a non-empty drain returns still carries
read_at = none (the data captured by the SELECT before the UPDATE ran),
while the store itself now records the row as read: every permitted
ListInbox result afterwards reports the same id with read_at set to the
drain time. -/
theorem C10_returned_data_unread (s : Store) (agent : String) (t : Nat)
    (out : List Message) (h : checkSelect s agent out) :
    (∀ m ∈ out, m.read_at = none) ∧
    (∀ m ∈ out, ∀ outI, inboxSelect (checkApply s t out) agent false outI →
      ∃ r, r ∈ outI ∧ r.id = m.id ∧ r.read_at = some t) := by
  constructor
  · intro m hm
    exact ((checkSelect_mem_iff h m).mp hm).2.2
  · intro m hm outI hI
    have hmem := (checkSelect_mem_iff h m).mp hm
    have hne : out.isEmpty = false := by
      cases out with
      | nil => cases hm
      | cons a l => rfl
    have hidmem : m.id ∈ out.map (fun m2 => m2.id) :=
      List.mem_map.mpr ⟨m, hm, rfl⟩
    have hrow : ({ m with read_at := some t } : Message)
        ∈ markRead (out.map (fun m2 => m2.id)) t s.rows := by
      unfold markRead
      refine List.mem_map.mpr ⟨m, hmem.1, ?_⟩
      simp [hidmem]
    have happly : (checkApply s t out).rows
        = markRead (out.map (fun m2 => m2.id)) t s.rows := by
      simp [checkApply, hne]
    have hfilter : ({ m with read_at := some t } : Message)
        ∈ (checkApply s t out).rows.filter (inboxFor agent false) := by
      rw [happly, List.mem_filter]
      exact ⟨hrow, by simp [inboxFor, hmem.2.1]⟩
    exact ⟨{ m with read_at := some t }, hI.1.mem_iff.mp hfilter, rfl, rfl⟩

/-- Witness for C10: draining the one unread message for cody at time 4. -/
theorem C10_returned_data_unread_witness :
    (∀ m ∈ [exRow], m.read_at = none) ∧
    (∀ m ∈ [exRow], ∀ outI, inboxSelect (checkApply exStore 4 [exRow]) "cody" false outI →
      ∃ r, r ∈ outI ∧ r.id = m.id ∧ r.read_at = some 4) :=
  C10_returned_data_unread exStore "cody" 4 [exRow]
    (checkSelect_of_filter_eq (by decide) (by simp))

theorem mem_markRead {ids : List Nat} {t : Nat} {rows : List Message}
    {r2 : Message} (h : r2 ∈ markRead ids t rows) :
    ∃ r, r ∈ rows ∧ ((r.id ∈ ids ∧ r2 = { r with read_at := some t }) ∨
      (r.id ∉ ids ∧ r2 = r)) := by
  rcases List.mem_map.mp h with ⟨r, hr, heq⟩
  by_cases hid : r.id ∈ ids
  · exact ⟨r, hr, Or.inl ⟨hid, by rw [← heq]; simp [hid]⟩⟩
  · exact ⟨r, hr, Or.inr ⟨hid, by rw [← heq]; simp [hid]⟩⟩

/-- Claim C7: every operation leaves the id, from_agent, to_agent, subject,
body and timestamp of every pre-existing row unchanged; showInbox leaves
the whole store unchanged; and read_at only ever moves from absent to a
timestamp, never back and never to a different value once set. -/
theorem C7_immutability (s s2 : Store) (op : Op)
    (hnd : List.Nodup (s.rows.map (fun m => m.id)))
    (h : OpStep s op s2) :
    (∀ r ∈ s.rows, ∃ r2, r2 ∈ s2.rows ∧ r2.id = r.id ∧
      r2.from_agent = r.from_agent ∧ r2.to_agent = r.to_agent ∧
      r2.subject = r.subject ∧ r2.body = r.body ∧ r2.timestamp = r.timestamp ∧
      (r2.read_at = r.read_at ∨ (r.read_at = none ∧ ∃ u, r2.read_at = some u))) ∧
    (∀ agent u out, op = Op.inbox agent u out → s2 = s) := by
  cases op with
  | deposit toA fromA subject body t =>
    refine ⟨fun r hr => ⟨r, ?_, rfl, rfl, rfl, rfl, rfl, rfl, Or.inl rfl⟩, ?_⟩
    · rw [h]
      exact List.mem_append_left _ hr
    · intro agent u out heq
      cases heq
  | check agent t out =>
    obtain ⟨hsel, happ⟩ := h
    by_cases hemp : out.isEmpty
    · have hs2 : s2 = s := by
        rw [happ]
        unfold checkApply
        rw [if_pos hemp]
      subst hs2
      exact ⟨fun r hr => ⟨r, hr, rfl, rfl, rfl, rfl, rfl, rfl, Or.inl rfl⟩,
        fun _ _ _ heq => by cases heq⟩
    · have hrows : s2.rows = markRead (out.map (fun m => m.id)) t s.rows := by
        rw [happ]
        unfold checkApply
        rw [if_neg hemp]
      refine ⟨fun r hr => ?_, fun _ _ _ heq => by cases heq⟩
      by_cases hid : r.id ∈ out.map (fun m => m.id)
      · have hr_unread : r.read_at = none := by
          rcases List.mem_map.mp hid with ⟨f, hf_out, hfid⟩
          have hf := (checkSelect_mem_iff hsel f).mp hf_out
          have hfr : f = r := List.inj_on_of_nodup_map hnd hf.1 hr hfid
          rw [← hfr]
          exact hf.2.2
        refine ⟨{ r with read_at := some t }, ?_, rfl, rfl, rfl, rfl, rfl, rfl,
          Or.inr ⟨hr_unread, t, rfl⟩⟩
        rw [hrows]
        exact List.mem_map.mpr ⟨r, hr, by simp [hid]⟩
      · refine ⟨r, ?_, rfl, rfl, rfl, rfl, rfl, rfl, Or.inl rfl⟩
        rw [hrows]
        exact List.mem_map.mpr ⟨r, hr, by simp [hid]⟩
  | inbox agent u out =>
    obtain ⟨hsel, heq⟩ := h
    subst heq
    exact ⟨fun r hr => ⟨r, hr, rfl, rfl, rfl, rfl, rfl, rfl, Or.inl rfl⟩,
      fun _ _ _ _ => rfl⟩

/-- Witness for C7: a showInbox operation on the one-message store. -/
theorem C7_immutability_witness :
    (∀ r ∈ exStore.rows, ∃ r2, r2 ∈ exStore.rows ∧ r2.id = r.id ∧
      r2.from_agent = r.from_agent ∧ r2.to_agent = r.to_agent ∧
      r2.subject = r.subject ∧ r2.body = r.body ∧ r2.timestamp = r.timestamp ∧
      (r2.read_at = r.read_at ∨ (r.read_at = none ∧ ∃ u, r2.read_at = some u))) ∧
    (∀ agent u out, Op.inbox "cody" false [exRow] = Op.inbox agent u out →
      exStore = exStore) :=
  C7_immutability exStore exStore (Op.inbox "cody" false [exRow]) (by decide)
    ⟨inboxSelect_of_filter_eq (by decide) (by simp), rfl⟩

theorem drainedInv_step {agent : String} {mid t : Nat} {s s2 : Store} {op : Op}
    (hI : DrainedInv agent mid t s) (h : OpStep s op s2) :
    DrainedInv agent mid t s2 := by
  obtain ⟨hbound, hmid, hmark, r0, hr0, hr0id, hr0to, hr0read⟩ := hI
  cases op with
  | deposit toA fromA subject body t2 =>
    have hs2 : s2 = ⟨s.rows ++ [⟨s.seq + 1, fromA, toA, subject, body, t2, none⟩],
        s.seq + 1⟩ := h
    subst hs2
    refine ⟨?_, Nat.le_succ_of_le hmid, ?_, ?_⟩
    · intro r hr
      rcases List.mem_append.mp hr with h1 | h1
      · have := hbound r h1
        show r.id ≤ s.seq + 1
        omega
      · rw [List.mem_singleton.mp h1]
    · intro r hr hrid
      rcases List.mem_append.mp hr with h1 | h1
      · exact hmark r h1 hrid
      · exfalso
        rw [List.mem_singleton.mp h1] at hrid
        have hx : s.seq + 1 = mid := hrid
        omega
    · exact ⟨r0, List.mem_append_left _ hr0, hr0id, hr0to, hr0read⟩
  | check agent2 t2 out2 =>
    obtain ⟨hsel, happ⟩ := h
    by_cases hemp : out2.isEmpty
    · have hs2 : s2 = s := by
        rw [happ]
        unfold checkApply
        rw [if_pos hemp]
      subst hs2
      exact ⟨hbound, hmid, hmark, r0, hr0, hr0id, hr0to, hr0read⟩
    · have hrows : s2.rows = markRead (out2.map (fun m => m.id)) t2 s.rows := by
        rw [happ]
        unfold checkApply
        rw [if_neg hemp]
      have hseq : s2.seq = s.seq := by
        rw [happ]
        unfold checkApply
        rw [if_neg hemp]
      have hnotin : mid ∉ out2.map (fun m => m.id) := by
        intro hin
        rcases List.mem_map.mp hin with ⟨f, hf_out, hfid⟩
        have hf := (checkSelect_mem_iff hsel f).mp hf_out
        have hft := hmark f hf.1 hfid
        rw [hf.2.2] at hft
        cases hft
      refine ⟨?_, by omega, ?_, ?_⟩
      · intro r hr
        rw [hrows] at hr
        rcases mem_markRead hr with ⟨r1, hr1, h2 | h2⟩
        · rw [h2.2, hseq]
          exact hbound r1 hr1
        · rw [h2.2, hseq]
          exact hbound r1 hr1
      · intro r hr hrid
        rw [hrows] at hr
        rcases mem_markRead hr with ⟨r1, hr1, ⟨hin1, heq1⟩ | ⟨hnin1, heq1⟩⟩
        · exfalso
          rw [heq1] at hrid
          have hx : r1.id = mid := hrid
          rw [hx] at hin1
          exact hnotin hin1
        · rw [heq1] at hrid ⊢
          exact hmark r1 hr1 hrid
      · refine ⟨r0, ?_, hr0id, hr0to, hr0read⟩
        rw [hrows]
        refine List.mem_map.mpr ⟨r0, hr0, ?_⟩
        rw [if_neg]
        rw [hr0id]
        exact hnotin
  | inbox agent2 u out2 =>
    obtain ⟨hsel, heq⟩ := h
    subst heq
    exact ⟨hbound, hmid, hmark, r0, hr0, hr0id, hr0to, hr0read⟩

theorem drainedInv_steps {agent : String} {mid t : Nat} {s s3 : Store}
    {ops : List Op} (hsteps : Steps s ops s3)
    (hI : DrainedInv agent mid t s) : DrainedInv agent mid t s3 := by
  induction hsteps with
  | nil => exact hI
  | cons hstep _ ih => exact ih (drainedInv_step hI hstep)

theorem drainedInv_establish {s : Store} {agent : String} {t : Nat}
    {out : List Message} {m : Message}
    (hbound : ∀ r ∈ s.rows, r.id ≤ s.seq)
    (hsel : checkSelect s agent out) (hm : m ∈ out) :
    DrainedInv agent m.id t (checkApply s t out) := by
  have hmem := (checkSelect_mem_iff hsel m).mp hm
  have hemp : out.isEmpty = false := by
    cases out with
    | nil => cases hm
    | cons a l => rfl
  have hrows : (checkApply s t out).rows
      = markRead (out.map (fun m2 => m2.id)) t s.rows := by
    simp [checkApply, hemp]
  have hseq : (checkApply s t out).seq = s.seq := by
    simp [checkApply, hemp]
  have hin : m.id ∈ out.map (fun m2 => m2.id) := List.mem_map.mpr ⟨m, hm, rfl⟩
  refine ⟨?_, ?_, ?_, ?_⟩
  · intro r hr
    rw [hrows] at hr
    rcases mem_markRead hr with ⟨r1, hr1, h2 | h2⟩
    · rw [h2.2, hseq]
      exact hbound r1 hr1
    · rw [h2.2, hseq]
      exact hbound r1 hr1
  · rw [hseq]
    exact hbound m hmem.1
  · intro r hr hrid
    rw [hrows] at hr
    rcases mem_markRead hr with ⟨r1, hr1, ⟨hin1, heq1⟩ | ⟨hnin1, heq1⟩⟩
    · rw [heq1]
    · exfalso
      rw [heq1] at hrid
      rw [hrid] at hnin1
      exact hnin1 hin
  · refine ⟨{ m with read_at := some t }, ?_, rfl, hmem.2.1, rfl⟩
    rw [hrows]
    exact List.mem_map.mpr ⟨m, hmem.1, by simp [hin]⟩

theorem drainedInv_no_redrain {agent agent2 : String} {mid t : Nat} {s : Store}
    (hI : DrainedInv agent mid t s) {out2 : List Message}
    (h : checkSelect s agent2 out2) : ∀ m2 ∈ out2, m2.id ≠ mid := by
  intro m2 hm2 heq
  have hmem := (checkSelect_mem_iff h m2).mp hm2
  have hft := hI.2.2.1 m2 hmem.1 heq
  rw [hmem.2.2] at hft
  cases hft

theorem drainedInv_inbox_reports {agent : String} {mid t : Nat} {s : Store}
    (hI : DrainedInv agent mid t s) {outI : List Message}
    (h : inboxSelect s agent false outI) :
    ∃ r, r ∈ outI ∧ r.id = mid ∧ r.read_at = some t := by
  obtain ⟨r0, hr0, hid, hto, hread⟩ := hI.2.2.2
  refine ⟨r0, ?_, hid, hread⟩
  apply h.1.mem_iff.mp
  rw [List.mem_filter]
  exact ⟨hr0, by simp [inboxFor, hto]⟩

theorem drain_then_drain_empty {s : Store} {agent : String} {t : Nat}
    {out : List Message} (hsel : checkSelect s agent out) {out2 : List Message}
    (h2 : checkSelect (checkApply s t out) agent out2) : out2 = [] := by
  by_cases hemp : out.isEmpty
  · have hout : out = [] := by
      cases out with
      | nil => rfl
      | cons a l => cases hemp
    subst hout
    have hf : s.rows.filter (unreadFor agent) = [] := hsel.1.eq_nil
    have happ : checkApply s t [] = s := rfl
    rw [happ] at h2
    have hp : List.Perm ([] : List Message) out2 := hf ▸ h2.1
    exact hp.symm.eq_nil
  · have hrows : (checkApply s t out).rows
        = markRead (out.map (fun m => m.id)) t s.rows := by
      simp [checkApply, hemp]
    have hf : (checkApply s t out).rows.filter (unreadFor agent) = [] := by
      rw [hrows, List.filter_eq_nil_iff]
      intro r2 hr2
      rcases mem_markRead hr2 with ⟨r1, hr1, ⟨hin1, heq1⟩ | ⟨hnin1, heq1⟩⟩
      · rw [heq1, unreadFor_eq_true]
        rintro ⟨-, hnone⟩
        cases hnone
      · rw [heq1, unreadFor_eq_true]
        rintro ⟨hto, hnone⟩
        apply hnin1
        have hfmem : r1 ∈ s.rows.filter (unreadFor agent) :=
          List.mem_filter.mpr ⟨hr1, unreadFor_eq_true.mpr ⟨hto, hnone⟩⟩
        have hidmem : r1.id ∈ (s.rows.filter (unreadFor agent)).map (fun m => m.id) :=
          List.mem_map.mpr ⟨r1, hfmem, rfl⟩
        exact ((hsel.1.map (fun m => m.id)).mem_iff).mp hidmem
    have hp : List.Perm ([] : List Message) out2 := hf ▸ h2.1
    exact hp.symm.eq_nil

/-- Claim C3: once a drain at time t returns a message, an immediately
following drain for the same agent returns the empty sequence, any drain
after any further sequence of operations never returns a message with that
id, and any ListInbox after those operations reports the message with
read_at populated (set to the drain time). -/
theorem C3_read_once (s s2 s3 : Store) (agent : String) (t : Nat)
    (out : List Message) (m : Message) (ops : List Op)
    (hbound : ∀ r ∈ s.rows, r.id ≤ s.seq)
    (hsel : checkSelect s agent out) (hm : m ∈ out)
    (happ : s2 = checkApply s t out)
    (hsteps : Steps s2 ops s3) :
    (∀ out2, checkSelect s2 agent out2 → out2 = []) ∧
    (∀ agent2 out2, checkSelect s3 agent2 out2 → ∀ m2 ∈ out2, m2.id ≠ m.id) ∧
    (∀ outI, inboxSelect s3 agent false outI →
      ∃ r, r ∈ outI ∧ r.id = m.id ∧ r.read_at = some t) := by
  subst happ
  have hI : DrainedInv agent m.id t (checkApply s t out) :=
    drainedInv_establish hbound hsel hm
  have hI3 : DrainedInv agent m.id t s3 := drainedInv_steps hsteps hI
  refine ⟨?_, ?_, ?_⟩
  · intro out2 h2
    exact drain_then_drain_empty hsel h2
  · intro agent2 out2 h2
    exact drainedInv_no_redrain hI3 h2
  · intro outI hi
    exact drainedInv_inbox_reports hI3 hi

/-- Witness for C3: draining the one unread message for cody at time 4,
with no further operations. -/
theorem C3_read_once_witness :
    (∀ out2, checkSelect exDrained "cody" out2 → out2 = []) ∧
    (∀ agent2 out2, checkSelect exDrained agent2 out2 →
      ∀ m2 ∈ out2, m2.id ≠ exRow.id) ∧
    (∀ outI, inboxSelect exDrained "cody" false outI →
      ∃ r, r ∈ outI ∧ r.id = exRow.id ∧ r.read_at = some 4) :=
  C3_read_once exStore exDrained exDrained "cody" 4 [exRow] exRow []
    (by decide) (checkSelect_of_filter_eq (by decide) (by simp)) (by simp)
    rfl (Steps.nil exDrained)

/-- Witness for C2 (amended): the empty-from deposit against the empty
store, with the concrete permitted ListInbox result. -/
theorem C2_empty_input_accepted_witness :
    (sendMessage ⟨[], 0⟩ "cody" "" none "x" 7).1.rows
      = ([] : List Message) ++ [⟨0 + 1, "", "cody", none, "x", 7, none⟩] ∧
    (sendMessage ⟨[], 0⟩ "cody" "" none "x" 7).2 = 0 + 1 ∧
    (⟨0 + 1, "", "cody", none, "x", 7, none⟩ : Message)
      ∈ [(⟨1, "", "cody", none, "x", 7, none⟩ : Message)] :=
  ⟨(C2_empty_input_accepted ⟨[], 0⟩ "cody" none "x" 7).1,
   (C2_empty_input_accepted ⟨[], 0⟩ "cody" none "x" 7).2.1,
   (C2_empty_input_accepted ⟨[], 0⟩ "cody" none "x" 7).2.2
     [⟨1, "", "cody", none, "x", 7, none⟩]
     (inboxSelect_of_filter_eq (by decide) (by simp))⟩
